import Mathlib

/-!
Shallow embedding of the movie-nexus media server (Rust sources:
`src/byte_range.rs`, `src/main.rs`, `src/scanner.rs`) together with
theorems settling the specification claims about it.

Conventions of the embedding:
* Rust `u64` values are modelled as `Nat`; where the source performs a
  `u64` subtraction that can underflow, the wrap-around is made explicit
  with `u64sub` (reduction modulo `2 ^ 64`, the release-mode semantics).
* A file on disk is modelled as its list of bytes (`List Nat`); the
  `u64` length reported by `std::fs::metadata` is the list's length.
* The `nom` parser combinators of `byte_range.rs` are modelled as
  functions `List Char → Option (List Char × α)`: `none` is a parse
  error, `some (rest, v)` a success leaving `rest` unconsumed, exactly
  as `nom`'s `IResult` does.
-/

namespace MovieNexus

/-! ## `byte_range.rs`: the `Range` header grammar -/

/-- `ByteRange` from `src/byte_range.rs`. -/
inductive ByteRange where
  | StartingAt : Nat → ByteRange
  | Last : Nat → ByteRange
  | FromToIncluding : Nat → Nat → ByteRange
deriving DecidableEq, Repr

/-- Parser input, the remaining characters of the header value. -/
abbrev PInput := List Char

/-- Value of a digit string, most significant digit first. -/
def digitsVal (ds : List Char) : Nat :=
  ds.foldl (fun a c => a * 10 + (c.toNat - 48)) 0

/-- `str::parse::<u64>` on a non-empty all-digit string: succeeds iff the
value fits in an unsigned 64-bit integer. -/
def parseU64 (ds : List Char) : Option Nat :=
  let n := digitsVal ds
  if n < 2 ^ 64 then some n else none

/-- `nom::character::complete::char`: consume exactly the character `c`. -/
def charP (c : Char) : PInput → Option (PInput × Char)
  | [] => none
  | x :: rest => if x = c then some (rest, c) else none

/-- `nom::bytes::complete::tag`: consume exactly the literal `t`. -/
def tagP (t : List Char) (inp : PInput) : Option PInput :=
  if inp.take t.length = t then some (inp.drop t.length) else none

/-- `sp` from `src/byte_range.rs`: `take_while(|ch| ch == ' ' || ch == '\t')`.
It always succeeds; we return only the remaining input. -/
def sp (inp : PInput) : PInput :=
  inp.dropWhile (fun c => c = ' ' || c = '\t')

/-- `nom::character::complete::digit1`: one or more ASCII digits. -/
def digit1 (inp : PInput) : Option (PInput × List Char) :=
  let ds := inp.takeWhile Char.isDigit
  if ds.isEmpty then none else some (inp.drop ds.length, ds)

/-- `many0_count(preceded(char(','), sp))` after the `bytes=` tag: the
optional leading commas (each followed by optional blanks).  `fuel` bounds
the iteration; every iteration consumes at least the comma, so
`fuel = inp.length` is always enough. -/
def leading_commas : Nat → PInput → PInput
  | 0, inp => inp
  | _ + 1, [] => []
  | fuel + 1, c :: rest => if c = ',' then leading_commas fuel (sp rest) else c :: rest

/-- `byte_range_set_start` from `src/byte_range.rs`: the literal `bytes=`
followed by any number of commas each followed by optional blanks. -/
def byte_range_set_start (inp : PInput) : Option PInput :=
  (tagP ("bytes=".toList) inp).map (fun rest => leading_commas rest.length rest)

/-- `byte_range_spec` from `src/byte_range.rs`: `<digits>-<digits>` gives
`FromToIncluding`, `<digits>-` gives `StartingAt`.  As in `nom`, a failing
`map_res` inside `opt` (for instance a second number too large for `u64`)
makes the `opt` yield `none` without consuming, so the spec parses as
`StartingAt` and the digits stay in the remaining input. -/
def byte_range_spec (inp : PInput) : Option (PInput × ByteRange) := do
  let (inp1, ds) ← digit1 inp
  let start ← parseU64 ds
  let (inp2, _) ← charP '-' inp1
  match (do
    let (inp3, ds2) ← digit1 inp2
    let e ← parseU64 ds2
    pure (inp3, e) : Option (PInput × Nat)) with
  | some (inp3, e) => some (inp3, ByteRange.FromToIncluding start e)
  | none => some (inp2, ByteRange.StartingAt start)

/-- `suffix_byte_range_spec` from `src/byte_range.rs`: `-<digits>` gives
`Last`. -/
def suffix_byte_range_spec (inp : PInput) : Option (PInput × ByteRange) := do
  let (inp1, _) ← charP '-' inp
  let (inp2, ds) ← digit1 inp1
  let n ← parseU64 ds
  pure (inp2, ByteRange.Last n)

/-- `alt((byte_range_spec, suffix_byte_range_spec))`. -/
def range_elem (inp : PInput) : Option (PInput × ByteRange) :=
  match byte_range_spec inp with
  | some r => some r
  | none => suffix_byte_range_spec inp

/-- One separator (`sp`, comma, `sp`) followed by one range element, as a
single backtracking step of `separated_list1`. -/
def sep_then_elem (inp : PInput) : Option (PInput × ByteRange) := do
  let (inp1, _) ← charP ',' (sp inp)
  range_elem (sp inp1)

/-- The loop of `nom::multi::separated_list1` after its first element:
keep taking separator-plus-element until one fails, then stop with what
was collected.  Every successful step consumes at least the comma, so
`fuel = inp.length` is always enough. -/
def range_list : Nat → PInput → List ByteRange → PInput × List ByteRange
  | 0, inp, acc => (inp, acc)
  | fuel + 1, inp, acc =>
    match sep_then_elem inp with
    | none => (inp, acc)
    | some (inp2, r) => range_list fuel inp2 (acc ++ [r])

/-- `parse_range` from `src/byte_range.rs`: `bytes=` start, then a
`separated_list1` of range specs.  Mirrors the `nom` result shape: on
success the unconsumed input is returned alongside the ranges. -/
def parse_range (inp : PInput) : Option (PInput × List ByteRange) :=
  match byte_range_set_start inp with
  | none => none
  | some inp1 =>
    match range_elem inp1 with
    | none => none
    | some (inp2, r1) => some (range_list inp2.length inp2 [r1])

/-! ## `main.rs`: the range-serving engine -/

/-- Wrapping `u64` subtraction (release-mode Rust semantics): for
`a, b < 2 ^ 64` this is `a - b` when `b ≤ a` and wraps around otherwise. -/
def u64sub (a b : Nat) : Nat :=
  (a + 2 ^ 64 - b) % 2 ^ 64

/-- The validity check of `serve_file_range` (`src/main.rs`, the
`range_valid` match). -/
def range_valid (file_len : Nat) : ByteRange → Bool
  | ByteRange.StartingAt start => start < file_len
  | ByteRange.Last len => len ≤ file_len
  | ByteRange.FromToIncluding start e => start < file_len && e < file_len && start ≤ e

/-- The `(start, end)` pair `serve_file_range` formats into the
`Content-Range` header for a valid range (`src/main.rs`).  The `u64`
subtractions `file_len - 1` and `file_len - len` are taken with their
wrap-around semantics. -/
def resolve_bounds (file_len : Nat) : ByteRange → Nat × Nat
  | ByteRange.StartingAt start => (start, u64sub file_len 1)
  | ByteRange.Last len => (u64sub file_len len, u64sub file_len 1)
  | ByteRange.FromToIncluding start e => (start, e)

/-- Observable outcome of `serve_file_range` (and of `serve_file`):
HTTP status, optional `Content-Range` header value, body bytes, and
whether `File::open` was reached. -/
structure RangeResponse where
  status : Nat
  contentRange : Option String
  body : List Nat
  fileOpened : Bool
deriving DecidableEq, Repr

/-- `serve_file_range` from `src/main.rs`, on a file modelled as its byte
list.  With no range: the body is the whole file and the status stays at
the response's initial `200 OK`.  With a range: validate, set status and
`Content-Range`, and return before opening the file when invalid;
otherwise open, seek to the resolved start (`SeekFrom::Start(start)`, or
`SeekFrom::End(-len)` for `Last`), and stream — capped by
`take(end - start + 1)` only for `FromToIncluding`, to end-of-file
otherwise.  The seek offsets and the `take` count are written with plain
`Nat` subtraction: on the valid ranges that reach them the guard makes
them equal to the `u64` values. -/
def serve_file_range (file : List Nat) (range : Option ByteRange) : RangeResponse :=
  let file_len := file.length
  match range with
  | none =>
    { status := 200, contentRange := none, body := file, fileOpened := true }
  | some r =>
    if range_valid file_len r then
      let b := resolve_bounds file_len r
      { status := 206
        contentRange := some ("bytes " ++ toString b.1 ++ "-" ++ toString b.2 ++ "/" ++ toString file_len)
        body :=
          match r with
          | ByteRange.StartingAt start => file.drop start
          | ByteRange.Last len => file.drop (file_len - len)
          | ByteRange.FromToIncluding start e => (file.drop start).take (e - start + 1)
        fileOpened := true }
    else
      { status := 416
        contentRange := some ("bytes */" ++ toString file_len)
        body := []
        fileOpened := false }

/-- The 404 response of `serve_file` (`src/main.rs`): path not in the
served set. -/
def http404 : RangeResponse :=
  { status := 404, contentRange := none, body := [], fileOpened := false }

/-- The 400 response of `serve_file`: `Range` header present but not
parseable. -/
def http400 : RangeResponse :=
  { status := 400, contentRange := none, body := [], fileOpened := false }

/-- The 500 response of `serve_file`: stat/open/read failure after the
path was found in the served set. -/
def http500 : RangeResponse :=
  { status := 500, contentRange := none, body := [], fileOpened := false }

/-- `RelativizedPath` from `src/scanner.rs`, with paths modelled as their
component lists. -/
structure RelativizedPath where
  path : List String
  relativePath : List String
deriving DecidableEq, Repr

/-- The range selection of `serve_file` (`src/main.rs`): a successfully
parsed list is used only when it holds exactly one spec
(`ranges.remove(0)`); any other count behaves as if no range were sent. -/
def choose_range (ranges : List ByteRange) : Option ByteRange :=
  if ranges.length = 1 then ranges.head? else none

/-- `serve_file` from `src/main.rs`, after percent-decoding: look the
requested relative path up in the served set (`find` by `relative_path`
equality); miss is a 404 before anything else.  On a hit, parse the
`Range` header if present (unparseable is a 400), keep it only when it is
a single spec, and hand over to `serve_file_range`.  The filesystem is
modelled by `disk`, mapping a physical path to the file's bytes; a path
the disk cannot read is the engine's internal error, surfaced as 500. -/
def serve_file (served : List RelativizedPath) (disk : List String → Option (List Nat))
    (requested : List String) (rawRange : Option PInput) : RangeResponse :=
  match served.find? (fun rp => rp.relativePath == requested) with
  | none => http404
  | some rp =>
    let proceed : Option ByteRange → RangeResponse := fun r =>
      match disk rp.path with
      | none => http500
      | some file => serve_file_range file r
    match rawRange with
    | none => proceed none
    | some inp =>
      match parse_range inp with
      | none => http400
      | some (_, ranges) => proceed (choose_range ranges)

/-! ## `scanner.rs`: catalogue builder and served set -/

/-- The extension constants of `src/scanner.rs`. -/
def EXTENSION_MP4 : String := "mp4"

/-- Metadata sidecar extension (`src/scanner.rs`). -/
def EXTENSION_TOML : String := "toml"

/-- Subtitle extension (`src/scanner.rs`). -/
def EXTENSION_SUBTITLES : String := "vtt"

/-- Default text-track language (`src/scanner.rs`). -/
def DEFAULT_LANGUAGE : String := "en"

/-- `CatalogueItem` from `src/scanner.rs`.  The duration is stored in
milliseconds, as the manifest serializes it. -/
inductive CatalogueItem where
  | Directory (name : String) (items : List CatalogueItem)
  | Video (path : RelativizedPath) (title : String) (subtitle : Option String)
      (duration : Nat) (textTracks : List (String × RelativizedPath))
      (thumbnails : List (List String))

/-- `extract_served_files` from `src/scanner.rs`: flat-map every item,
a `Video` contributing its `path` field (and nothing else — in
particular none of its `text_tracks` values) and a `Directory` its
children's contributions.  The Rust `HashSet` return value is modelled
by the list of collected elements; membership in the list is membership
in the hash set. -/
def extract_served_files : List CatalogueItem → List RelativizedPath
  | [] => []
  | CatalogueItem.Video p _ _ _ _ _ :: rest => p :: extract_served_files rest
  | CatalogueItem.Directory _ items :: rest =>
    extract_served_files items ++ extract_served_files rest

/-- `Config` from `src/scanner.rs`: the deserialized sidecar metadata. -/
structure Config where
  title : String
  subtitle : Option String
  duration : String
  textTrackLanguage : Option String

/-- The result shape of `iso8601::duration`: either the
year/month/day/hour/minute/second/millisecond form or the weeks form. -/
inductive Iso8601Duration where
  | YMDHMS (year month day hour minute second millisecond : Nat)
  | Weeks (w : Nat)

/-- A directory entry as `scan_directory` sees it: a subdirectory with
its own entries, or a regular file given by stem, optional extension and
text content (content is only ever read for the metadata sidecars). -/
inductive FsEntry where
  | dir (name : String) (entries : List FsEntry)
  | file (stem : String) (ext : Option String) (content : String)

/-- `Path::is_file` plus `fs::read_to_string` for a sibling path built by
`set_extension`: the content of the regular file with the given stem and
extension among the directory's entries, when there is one. -/
def findFile (entries : List FsEntry) (stem ext : String) : Option String :=
  entries.findSome? (fun e =>
    match e with
    | FsEntry.file s (some x) c => if s = stem ∧ x = ext then some c else none
    | _ => none)

/-- `RelativizedPath::new(root_path, path)`: the physical path is the
root followed by the path relative to it. -/
def mkRelativizedPath (root relDir : List String) (name : String) : RelativizedPath :=
  { path := root ++ relDir ++ [name], relativePath := relDir ++ [name] }

/-- The body of `scan_directory`'s loop (`src/scanner.rs`), processing a
directory's entries in order.  `tomlP` models `toml::from_str::<Config>`
and `isoP` models `iso8601::duration`; both are behaviour parameters of
the external crates.  `ctx` is the full entry list of the directory being
scanned, against which the sibling metadata and subtitle files are looked
up; `relDir` is the directory's path relative to `root`.  A subdirectory
becomes a `Directory` item around the recursive scan; a file is a
candidate only with extension exactly `mp4`, and is skipped without any
output when its sidecar is missing, fails deserialization, or has a
duration that does not resolve to the hours/minutes/seconds/milliseconds
form. -/
def scanEntries (tomlP : String → Option Config) (isoP : String → Option Iso8601Duration)
    (root : List String) (ctx : List FsEntry) (relDir : List String) :
    List FsEntry → List CatalogueItem
  | [] => []
  | FsEntry.dir name sub :: rest =>
    CatalogueItem.Directory name (scanEntries tomlP isoP root sub (relDir ++ [name]) sub)
      :: scanEntries tomlP isoP root ctx relDir rest
  | FsEntry.file stem ext _ :: rest =>
    (match ext with
      | none => []
      | some x =>
        if x ≠ EXTENSION_MP4 then []
        else
          match findFile ctx stem EXTENSION_TOML with
          | none => []
          | some tomlContent =>
            match tomlP tomlContent with
            | none => []
            | some config =>
              match isoP config.duration with
              | some (Iso8601Duration.YMDHMS _ _ _ hour minute second millisecond) =>
                [CatalogueItem.Video
                  (mkRelativizedPath root relDir (stem ++ "." ++ x))
                  config.title config.subtitle
                  (hour * 60 * 60 * 1000 + minute * 60 * 1000 + second * 1000 + millisecond)
                  (match findFile ctx stem EXTENSION_SUBTITLES with
                    | some _ =>
                      [(config.textTrackLanguage.getD DEFAULT_LANGUAGE,
                        mkRelativizedPath root relDir (stem ++ "." ++ EXTENSION_SUBTITLES))]
                    | none => [])
                  []]
              | _ => [])
      ++ scanEntries tomlP isoP root ctx relDir rest

/-- `scan_directory(root_path, path)` at the root of the walk
(`src/scanner.rs`): scan the root directory's entries against
themselves. -/
def scan_directory (tomlP : String → Option Config) (isoP : String → Option Iso8601Duration)
    (root : List String) (entries : List FsEntry) : List CatalogueItem :=
  scanEntries tomlP isoP root entries [] entries

/-! ## Claim-side definitions, written from the specification's words -/

/-- Validity of a range against the file length as the specification
words it: `StartingAt(s)` valid iff `s < length`; `Last(n)` valid iff
`n ≤ length`; `FromToIncluding(s, e)` valid iff `s < length` and
`e < length` and `s ≤ e`. -/
def spec_valid (len : Nat) : ByteRange → Bool
  | ByteRange.StartingAt s => s < len
  | ByteRange.Last n => n ≤ len
  | ByteRange.FromToIncluding s e => s < len && e < len && s ≤ e

/-- The inclusive `[start, end]` bounds as the specification resolves
them — `StartingAt(s) → [s, length-1]`, `Last(n) → [length-n, length-1]`,
`FromToIncluding(s, e) → [s, e]` — in the unsigned 64-bit arithmetic of
the quantities involved. -/
def spec_bounds (len : Nat) : ByteRange → Nat × Nat
  | ByteRange.StartingAt s => (s, u64sub len 1)
  | ByteRange.Last n => (u64sub len n, u64sub len 1)
  | ByteRange.FromToIncluding s e => (s, e)

/-- The same bounds with exact (mathematical) subtraction; agreement of
`resolve_bounds` with these is exactly the absence of `u64`
underflow in the code's subtractions. -/
def exact_bounds (len : Nat) : ByteRange → Nat × Nat
  | ByteRange.StartingAt s => (s, len - 1)
  | ByteRange.Last n => (len - n, len - 1)
  | ByteRange.FromToIncluding s e => (s, e)

/-- The code's skip condition on the sidecar duration: `iso8601::duration`
fails, or it yields the weeks form instead of the
hours/minutes/seconds/milliseconds form. -/
def durationFails : Option Iso8601Duration → Bool
  | some (Iso8601Duration.YMDHMS _ _ _ _ _ _ _) => false
  | _ => true

/-! ## Helper lemmas -/

theorem u64sub_eq_sub {a b : Nat} (hb : b ≤ a) (ha : a < 2 ^ 64) :
    u64sub a b = a - b := by
  unfold u64sub
  have h1 : a + 2 ^ 64 - b = a - b + 2 ^ 64 := by omega
  rw [h1, Nat.add_mod_right, Nat.mod_eq_of_lt (by omega)]

theorem spec_valid_eq_range_valid (len : Nat) (r : ByteRange) :
    spec_valid len r = range_valid len r := by
  cases r <;> rfl

theorem range_list_eq_append (fuel : Nat) :
    ∀ inp acc, ∃ t, (range_list fuel inp acc).2 = acc ++ t := by
  induction fuel with
  | zero => intro inp acc; exact ⟨[], (List.append_nil acc).symm⟩
  | succ fuel ih =>
    intro inp acc
    unfold range_list
    cases h : sep_then_elem inp with
    | none => exact ⟨[], (List.append_nil acc).symm⟩
    | some p =>
      obtain ⟨t, ht⟩ := ih p.1 (acc ++ [p.2])
      exact ⟨[p.2] ++ t, by simpa [List.append_assoc] using ht⟩

/-! ## The claims -/

/-- A catalogue with a single `Video` that has one text track: the input
on which `extract_served_files` diverges from the specification. -/
def c1_video_path : RelativizedPath :=
  { path := ["library", "a.mp4"], relativePath := ["a.mp4"] }

/-- The text-track path of the C1 catalogue. -/
def c1_track_path : RelativizedPath :=
  { path := ["library", "a.vtt"], relativePath := ["a.vtt"] }

/-- The C1 catalogue: one `Video` whose text-track mapping holds
`c1_track_path` under the default language. -/
def c1_catalogue : List CatalogueItem :=
  [CatalogueItem.Video c1_video_path "A" none 1000 [("en", c1_track_path)] []]

/-- Claim C1: the claim (and the specification) say the served set
contains every `Video`'s primary path *and every value of its text-track
mapping*; the code collects only the primary path.  On a catalogue with
one `Video` carrying one text track, the track's `RelativizedPath` is
absent from the served set, so the subtitle file advertised by the
manifest can never be served. -/
theorem c1_extract_omits_text_tracks :
    extract_served_files c1_catalogue = [c1_video_path] ∧
    c1_track_path ∉ extract_served_files c1_catalogue := by
  have h : extract_served_files c1_catalogue = [c1_video_path] := by
    simp [c1_catalogue, extract_served_files]
  refine ⟨h, ?_⟩
  rw [h]
  simp [c1_track_path, c1_video_path]

/-- Claim C2: for every file and every supplied single range judged
valid, `serve_file_range` answers `206 Partial Content` with a
`Content-Range: bytes start-end/length` header whose inclusive bounds
are the ones the specification resolves (`StartingAt(s) → [s, length-1]`,
`Last(n) → [length-n, length-1]`, `FromToIncluding(s, e) → [s, e]`, in
`u64` arithmetic). -/
theorem c2_valid_range_partial_content (file : List Nat) (r : ByteRange)
    (h : spec_valid file.length r = true) :
    (serve_file_range file (some r)).status = 206 ∧
    (serve_file_range file (some r)).contentRange =
      some ("bytes " ++ toString (spec_bounds file.length r).1 ++ "-"
        ++ toString (spec_bounds file.length r).2 ++ "/" ++ toString file.length) := by
  rw [spec_valid_eq_range_valid] at h
  have hb : resolve_bounds file.length r = spec_bounds file.length r := by
    cases r <;> rfl
  constructor <;> simp [serve_file_range, h, hb]

/-- Witness for C2 at a concrete input: a three-byte file and the range
`1-2`. -/
theorem c2_witness :
    spec_valid (List.length [(10 : Nat), 20, 30]) (ByteRange.FromToIncluding 1 2) = true ∧
    (serve_file_range [10, 20, 30] (some (ByteRange.FromToIncluding 1 2))).status = 206 ∧
    (serve_file_range [10, 20, 30] (some (ByteRange.FromToIncluding 1 2))).contentRange =
      some "bytes 1-2/3" :=
  ⟨by decide,
    (c2_valid_range_partial_content [10, 20, 30] (ByteRange.FromToIncluding 1 2) (by decide)).1,
    by
      have h := (c2_valid_range_partial_content [10, 20, 30]
        (ByteRange.FromToIncluding 1 2) (by decide)).2
      simpa using h⟩

/-- Claim C3: every supplied range that fails the validity check gets
`416 Range Not Satisfiable`, header `Content-Range: bytes */length`, an
empty body, and the file is never opened. -/
theorem c3_invalid_range_416 (file : List Nat) (r : ByteRange)
    (h : spec_valid file.length r = false) :
    serve_file_range file (some r) =
      { status := 416, contentRange := some ("bytes */" ++ toString file.length),
        body := [], fileOpened := false } := by
  rw [spec_valid_eq_range_valid] at h
  simp [serve_file_range, h]

/-- Witness for C3 at a concrete input: a two-byte file and the
out-of-bounds range `StartingAt 5`. -/
theorem c3_witness :
    spec_valid (List.length [(1 : Nat), 2]) (ByteRange.StartingAt 5) = false ∧
    serve_file_range [1, 2] (some (ByteRange.StartingAt 5)) =
      { status := 416, contentRange := some ("bytes */" ++ toString (List.length [(1 : Nat), 2])),
        body := [], fileOpened := false } :=
  ⟨by decide, c3_invalid_range_416 [1, 2] (ByteRange.StartingAt 5) (by decide)⟩

/-- Claim C4: for a valid `FromToIncluding(s, e)` range the streamed
body is exactly the `e - s + 1` bytes of the file from offset `s`
through offset `e`; for valid `StartingAt` and `Last` ranges the body is
the file from the resolved start offset to end-of-file. -/
theorem c4_body_window (file : List Nat) :
    (∀ s e, s ≤ e → e < file.length →
      ((serve_file_range file (some (ByteRange.FromToIncluding s e))).body.length
          = e - s + 1 ∧
        ∀ i, i < e - s + 1 →
          (serve_file_range file (some (ByteRange.FromToIncluding s e))).body[i]?
            = file[s + i]?)) ∧
    (∀ s, s < file.length →
      (serve_file_range file (some (ByteRange.StartingAt s))).body = file.drop s) ∧
    (∀ n, n ≤ file.length →
      (serve_file_range file (some (ByteRange.Last n))).body
        = file.drop (file.length - n)) := by
  refine ⟨?_, ?_, ?_⟩
  · intro s e hse he
    have hv : range_valid file.length (ByteRange.FromToIncluding s e) = true := by
      simp [range_valid]
      omega
    have hbody : (serve_file_range file (some (ByteRange.FromToIncluding s e))).body
        = (file.drop s).take (e - s + 1) := by
      simp [serve_file_range, hv]
    rw [hbody]
    constructor
    · rw [List.length_take, List.length_drop]
      omega
    · intro i hi
      rw [List.getElem?_take_of_lt hi, List.getElem?_drop]
  · intro s hs
    have hv : range_valid file.length (ByteRange.StartingAt s) = true := by
      simpa [range_valid] using hs
    simp [serve_file_range, hv]
  · intro n hn
    have hv : range_valid file.length (ByteRange.Last n) = true := by
      simpa [range_valid] using hn
    simp [serve_file_range, hv]

/-- Witness for C4 at a concrete input: a five-byte file, the window
`1-3`, and the open-ended ranges `StartingAt 2` and `Last 2`. -/
theorem c4_witness :
    ((serve_file_range [7, 8, 9, 10, 11] (some (ByteRange.FromToIncluding 1 3))).body.length
        = 3 - 1 + 1 ∧
      ∀ i, i < 3 - 1 + 1 →
        (serve_file_range [7, 8, 9, 10, 11] (some (ByteRange.FromToIncluding 1 3))).body[i]?
          = [7, 8, 9, 10, 11][1 + i]?) ∧
    (serve_file_range [7, 8, 9, 10, 11] (some (ByteRange.StartingAt 2))).body
      = List.drop 2 [7, 8, 9, 10, 11] ∧
    (serve_file_range [7, 8, 9, 10, 11] (some (ByteRange.Last 2))).body
      = List.drop (List.length [(7 : Nat), 8, 9, 10, 11] - 2) [7, 8, 9, 10, 11] :=
  ⟨(c4_body_window [7, 8, 9, 10, 11]).1 1 3 (by decide) (by decide),
    (c4_body_window [7, 8, 9, 10, 11]).2.1 2 (by decide),
    (c4_body_window [7, 8, 9, 10, 11]).2.2 2 (by decide)⟩

/-- Claim C5 counterexample: at `n = 0` on a ten-byte file, `Last(0)` is
judged valid and answered `206` (with the degenerate header
`bytes 10-9/10` and an empty body), while `StartingAt(10 - 0)` is judged
invalid and answered `416` — so the two responses differ and the claim
fails as stated. -/
theorem c5_counterexample :
    serve_file_range (List.replicate 10 0) (some (ByteRange.Last 0)) ≠
      serve_file_range (List.replicate 10 0) (some (ByteRange.StartingAt (10 - 0))) := by
  intro h
  have h206 : (serve_file_range (List.replicate 10 0) (some (ByteRange.Last 0))).status
      = 206 := by decide
  have h416 : (serve_file_range (List.replicate 10 0)
      (some (ByteRange.StartingAt (10 - 0)))).status = 416 := by decide
  rw [h] at h206
  rw [h416] at h206
  exact absurd h206 (by decide)

/-- Claim C5 as amended: for every `n` with `1 ≤ n ≤ length` (the claim
stated it for every `n ≤ length`, but at `n = 0` the two sides differ),
serving `Last(n)` produces exactly the same response as serving
`StartingAt(length - n)`.  `length < 2 ^ 64` records that the length is
a `u64` value. -/
theorem c5_last_eq_starting_at (file : List Nat) (n : Nat)
    (h1 : 1 ≤ n) (h2 : n ≤ file.length) (hlen : file.length < 2 ^ 64) :
    serve_file_range file (some (ByteRange.Last n)) =
      serve_file_range file (some (ByteRange.StartingAt (file.length - n))) := by
  have hsub : u64sub file.length n = file.length - n := u64sub_eq_sub h2 hlen
  have hv1 : range_valid file.length (ByteRange.Last n) = true := by
    simpa [range_valid] using h2
  have hv2 : range_valid file.length (ByteRange.StartingAt (file.length - n)) = true := by
    simp [range_valid]
    omega
  simp [serve_file_range, hv1, hv2, resolve_bounds, hsub]

/-- Witness for the amended C5 at a concrete input: `Last 4` on a
ten-byte file equals `StartingAt 6`. -/
theorem c5_witness :
    serve_file_range (List.replicate 10 0) (some (ByteRange.Last 4)) =
      serve_file_range (List.replicate 10 0)
        (some (ByteRange.StartingAt (List.length (List.replicate 10 (0 : Nat)) - 4))) :=
  c5_last_eq_starting_at (List.replicate 10 0) 4 (by decide) (by decide) (by norm_num)

/-- Claim C6 counterexample: the end field `18446744073709551616` is
`2 ^ 64` and fails the unsigned 64-bit parse, yet the header is not
rejected — `opt(map_res(...))` swallows the failure, the spec parses as
`StartingAt 0`, and the twenty digits are simply left unconsumed.  A
numeric-field parse failure is therefore not always a syntax error for
the whole header, and the result is a partial (prefix) parse. -/
theorem c6_counterexample :
    parse_range ("bytes=0-18446744073709551616".toList) =
      some ("18446744073709551616".toList, [ByteRange.StartingAt 0]) := by
  decide

/-- Claim C6 as amended: `parse_range` returns either a non-empty
ordered sequence of `ByteRange` values or a syntax error for the whole
header — but the success need not consume the whole input: an end field
that fails the unsigned 64-bit parse turns the spec into `StartingAt`
with the digits left unconsumed, and a later spec that fails merely ends
the list, so only the leading `bytes=` part and the first range-spec are
all-or-nothing. -/
theorem c6_parse_range_nonempty (inp rest : PInput) (rs : List ByteRange)
    (h : parse_range inp = some (rest, rs)) : rs ≠ [] := by
  unfold parse_range at h
  cases hb : byte_range_set_start inp with
  | none => rw [hb] at h; simp at h
  | some inp1 =>
    rw [hb] at h
    dsimp only at h
    cases he : range_elem inp1 with
    | none => rw [he] at h; simp at h
    | some p =>
      obtain ⟨a, b⟩ := p
      rw [he] at h
      dsimp only at h
      have h2 : range_list a.length a [b] = (rest, rs) := Option.some.inj h
      obtain ⟨t, ht⟩ := range_list_eq_append a.length a [b]
      rw [h2] at ht
      have hrs : rs = b :: t := by simpa using ht
      simp [hrs]

/-- Witness for the amended C6 at a concrete input: `bytes=0-5` parses
fully into the non-empty list `[FromToIncluding 0 5]`. -/
theorem c6_witness :
    parse_range ("bytes=0-5".toList) = some ([], [ByteRange.FromToIncluding 0 5]) ∧
    ([ByteRange.FromToIncluding 0 5] : List ByteRange) ≠ [] :=
  ⟨by decide,
    c6_parse_range_nonempty ("bytes=0-5".toList) [] [ByteRange.FromToIncluding 0 5]
      (by decide)⟩

/-- Claim C7: when the `Range` header parses into more than one
range-spec, `serve_file` behaves exactly as if no range were present —
status `200`, the full file as the body, and no `Content-Range`
header. -/
theorem c7_multi_spec_served_whole (served : List RelativizedPath)
    (disk : List String → Option (List Nat)) (requested : List String)
    (inp rest : PInput) (ranges : List ByteRange) (rp : RelativizedPath) (file : List Nat)
    (hfind : served.find? (fun q => q.relativePath == requested) = some rp)
    (hdisk : disk rp.path = some file)
    (hparse : parse_range inp = some (rest, ranges))
    (hlen : 2 ≤ ranges.length) :
    serve_file served disk requested (some inp) =
      { status := 200, contentRange := none, body := file, fileOpened := true } := by
  have hc : choose_range ranges = none := by
    unfold choose_range
    have hne : ranges.length ≠ 1 := by omega
    simp [hne]
  simp [serve_file, hfind, hparse, hc, hdisk, serve_file_range]

/-- Witness for C7 at a concrete input: the spec's own example
`bytes=0-0,5-5`, two specs, served as the full three-byte file. -/
theorem c7_witness :
    serve_file [{ path := ["library", "f.mp4"], relativePath := ["f.mp4"] }]
        (fun p => if p = ["library", "f.mp4"] then some [1, 2, 3] else none)
        ["f.mp4"] (some ("bytes=0-0,5-5".toList)) =
      { status := 200, contentRange := none, body := [1, 2, 3], fileOpened := true } :=
  c7_multi_spec_served_whole
    [{ path := ["library", "f.mp4"], relativePath := ["f.mp4"] }]
    (fun p => if p = ["library", "f.mp4"] then some [1, 2, 3] else none)
    ["f.mp4"] ("bytes=0-0,5-5".toList) []
    [ByteRange.FromToIncluding 0 0, ByteRange.FromToIncluding 5 5]
    { path := ["library", "f.mp4"], relativePath := ["f.mp4"] } [1, 2, 3]
    (by decide) (by decide) (by decide) (by decide)

/-- Claim C8: an `mp4` entry whose sidecar metadata file is missing from
the directory, or whose metadata fails deserialization, or whose
duration string does not resolve to the
hours/minutes/seconds/milliseconds form, contributes nothing to the
catalogue: scanning the directory with the entry is the same as scanning
it without, so no partial `Video` and no error entry is emitted. -/
theorem c8_invalid_sidecar_skipped (tomlP : String → Option Config)
    (isoP : String → Option Iso8601Duration) (root relDir : List String)
    (ctx : List FsEntry) (stem content : String) (rest : List FsEntry)
    (hfail : findFile ctx stem EXTENSION_TOML = none
      ∨ ∃ c, findFile ctx stem EXTENSION_TOML = some c ∧
          (tomlP c = none ∨ ∃ cfg, tomlP c = some cfg ∧ durationFails (isoP cfg.duration) = true)) :
    scanEntries tomlP isoP root ctx relDir
        (FsEntry.file stem (some EXTENSION_MP4) content :: rest) =
      scanEntries tomlP isoP root ctx relDir rest := by
  rcases hfail with hmiss | ⟨c, hc, hbad⟩
  · simp [scanEntries, hmiss]
  · rcases hbad with htoml | ⟨cfg, hcfg, hdur⟩
    · simp [scanEntries, hc, htoml]
    · have hdur2 : ∀ y m d hh mm ss ms,
          isoP cfg.duration ≠ some (Iso8601Duration.YMDHMS y m d hh mm ss ms) := by
        intro y m d hh mm ss ms hEq
        rw [hEq] at hdur
        simp [durationFails] at hdur
      cases hiso : isoP cfg.duration with
      | none => simp [scanEntries, hc, hcfg, hiso]
      | some dur =>
        cases dur with
        | YMDHMS y m d hh mm ss ms => exact absurd hiso (hdur2 y m d hh mm ss ms)
        | Weeks w => simp [scanEntries, hc, hcfg, hiso]

/-- Witness for C8 at a concrete input: a directory holding `a.mp4` and
its sidecar `a.toml`, with a metadata parser that rejects the sidecar —
the scan yields nothing. -/
theorem c8_witness :
    scanEntries (fun _ => none) (fun _ => none) ["library"]
        [FsEntry.file "a" (some EXTENSION_MP4) "",
          FsEntry.file "a" (some EXTENSION_TOML) "bad"] []
        [FsEntry.file "a" (some EXTENSION_MP4) ""] =
      scanEntries (fun _ => none) (fun _ => none) ["library"]
        [FsEntry.file "a" (some EXTENSION_MP4) "",
          FsEntry.file "a" (some EXTENSION_TOML) "bad"] [] [] :=
  c8_invalid_sidecar_skipped (fun _ => none) (fun _ => none) ["library"] []
    [FsEntry.file "a" (some EXTENSION_MP4) "",
      FsEntry.file "a" (some EXTENSION_TOML) "bad"] "a" "" []
    (Or.inr ⟨"bad", by decide, Or.inl rfl⟩)

/-- Claim C9: a requested relative path that matches no served-set
entry's relative path is answered `404`, whatever the disk holds — the
lookup is pure membership and no filesystem access happens on a miss. -/
theorem c9_not_served_404 (served : List RelativizedPath)
    (disk : List String → Option (List Nat)) (requested : List String)
    (rawRange : Option PInput)
    (h : ∀ rp ∈ served, rp.relativePath ≠ requested) :
    serve_file served disk requested rawRange =
      { status := 404, contentRange := none, body := [], fileOpened := false } := by
  have hf : served.find? (fun rp => rp.relativePath == requested) = none := by
    rw [List.find?_eq_none]
    intro rp hrp
    simpa using h rp hrp
  simp [serve_file, hf, http404]

/-- Witness for C9 at a concrete input: the served set knows only
`a.mp4`, the client asks for `b.mp4`, and the disk does hold a file at
the requested path — `404` regardless. -/
theorem c9_witness :
    serve_file [{ path := ["library", "a.mp4"], relativePath := ["a.mp4"] }]
        (fun _ => some [9, 9, 9]) ["b.mp4"] none =
      { status := 404, contentRange := none, body := [], fileOpened := false } :=
  c9_not_served_404 [{ path := ["library", "a.mp4"], relativePath := ["a.mp4"] }]
    (fun _ => some [9, 9, 9]) ["b.mp4"] none (by decide)

/-- Claim C10: for any file length `L ≥ 1` (a `u64`, so `L < 2 ^ 64`)
and any range the validity check accepts, the wrapped `u64` subtractions
in the bound resolution coincide with exact subtraction — no underflow;
and the precondition `L ≥ 1` is necessary: `Last(0)` is judged valid at
`L = 0`, where `L - 1` underflows and the wrapped bounds differ from the
exact ones. -/
theorem c10_no_underflow :
    (∀ L r, 1 ≤ L → L < 2 ^ 64 → range_valid L r = true →
      resolve_bounds L r = exact_bounds L r) ∧
    range_valid 0 (ByteRange.Last 0) = true ∧
    resolve_bounds 0 (ByteRange.Last 0) ≠ exact_bounds 0 (ByteRange.Last 0) := by
  refine ⟨?_, by decide, by decide⟩
  intro L r h1 h2 hv
  cases r with
  | StartingAt s =>
    simp [resolve_bounds, exact_bounds, u64sub_eq_sub h1 h2]
  | Last n =>
    have hn : n ≤ L := by simpa [range_valid] using hv
    simp [resolve_bounds, exact_bounds, u64sub_eq_sub h1 h2, u64sub_eq_sub hn h2]
  | FromToIncluding s e => rfl

/-- Witness for C10 at a concrete input: `StartingAt 2` on a file of
length `5` resolves without underflow. -/
theorem c10_witness :
    resolve_bounds 5 (ByteRange.StartingAt 2) = exact_bounds 5 (ByteRange.StartingAt 2) :=
  c10_no_underflow.1 5 (ByteRange.StartingAt 2) (by decide) (by norm_num) (by decide)

end MovieNexus
